import Mathlib

/-!
Verification of the combo-detection state machine in
`drivers/input/keycombo.c` (Android/HTC msm8996 kernel tree).

The C driver is shallowly embedded:

* `keycombo_state` embeds the fields of `struct keycombo_state` that the
  event path and the probe path read or write.  The kernel bit arrays
  `keybit`, `upbit`, `key` become `Nat → Bool`; the C `int` counters become
  `Int`; the `struct delayed_work key_down_work` is embedded by its pending
  status (`DWork`: not pending / timer armed / sitting on the ordered
  workqueue); the `struct work_struct key_up_work` by a `Bool` (queued or
  not); the two `struct wakeup_source`s by their active `Bool`; and the two
  callback pointers `key_down_fn` / `key_up_fn` by a `Bool` recording
  whether the pointer is non-NULL.
* `keycombo_event` embeds the event handler `keycombo_event`, with the
  kernel work primitives given their documented semantics:
  `queue_delayed_work` arms the timer only when the work is not already
  pending, and `cancel_delayed_work` succeeds exactly when the work is
  still pending (timer armed or queued but not yet started).
* `Step`/`Reach` embed the whole system: event-handler calls interleaved
  with timer expiry and with the single-threaded ordered workqueue
  (`alloc_ordered_workqueue`) running `do_key_down` / `do_key_up`, while
  `trace` records the user-callback invocations those work items perform.
-/

namespace Keycombo

/-- Value of `EV_KEY` from `<linux/input.h>`: the event type the handler accepts. -/
def EV_KEY : Nat := 1

/-- Value of `KEY_MAX` from `<linux/input.h>` (0x2ff = 767).  `keycombo_event`
rejects `code >= KEY_MAX`, so the processed domain is `0 ≤ code < 767`. -/
def KEY_MAX : Nat := 767

/-- Magnitude of `-ENODEV`, returned by `keycombo_connect` when no tracked key overlaps
the device's key set. -/
def ENODEV : Int := 19

/-- Pending status of the delayed work item `key_down_work`:
`idle` = not pending (never queued, cancelled, or its run has started);
`timer` = `queue_delayed_work` armed the delay timer;
`queued` = the timer expired and the item sits on the ordered workqueue,
not yet started. -/
inductive DWork
  | idle
  | timer
  | queued
  deriving DecidableEq

/-- Observable user-callback invocations: `act` = `key_down_fn` (activate),
`deact` = `key_up_fn` (deactivate). -/
inductive Lab
  | act
  | deact
  deriving DecidableEq

/-- Embedding of `struct keycombo_state` (the fields the modelled code
touches).  Bit arrays are total boolean functions on key codes; counters
are mathematical integers standing for the C `int` fields. -/
structure keycombo_state where
  keybit : Nat → Bool
  upbit : Nat → Bool
  key : Nat → Bool
  key_down_target : Int
  key_down : Int
  key_up : Int
  key_is_down : Int
  key_down_work : DWork
  key_up_work : Bool
  key_down_fn : Bool
  key_up_fn : Bool
  combo_held_wake_source : Bool
  combo_up_wake_source : Bool

/-- Lines 89–100 of `keycombo_event`: `__change_bit(code, state->key)`
followed by the up/down counter update (`value` truthiness decides
increment vs decrement, `upbit` membership decides which counter). -/
def updateCounts (s : keycombo_state) (code : Nat) (value : Int) : keycombo_state :=
  let key' : Nat → Bool := fun c => if c = code then !(s.key c) else s.key c
  if s.upbit code then
    { s with key := key', key_up := if value ≠ 0 then s.key_up + 1 else s.key_up - 1 }
  else
    { s with key := key', key_down := if value ≠ 0 then s.key_down + 1 else s.key_down - 1 }

/-- The combo-complete condition of line 101:
`state->key_down == state->key_down_target && state->key_up == 0`. -/
def comboDone (s : keycombo_state) : Prop :=
  s.key_down = s.key_down_target ∧ s.key_up = 0

instance (s : keycombo_state) : Decidable (comboDone s) := by
  unfold comboDone
  infer_instance

/-- Embedding of `keycombo_event` (lines 71–117).  Early returns: wrong
event type, `code >= KEY_MAX`, untracked code, and the duplicate-event
guard `!test_bit(code, state->key) == !value`.  Otherwise the bit is
flipped and a counter updated (`updateCounts`); if the combo condition
holds, the held wake source is activated, `key_is_down` is set and
`queue_delayed_work` arms the activate timer (a no-op when already
pending); otherwise, if `key_is_down` was set, `cancel_delayed_work` is
attempted — it succeeds iff the work is still pending — and on failure the
releasing wake source is activated and `key_up_work` queued; in both cases
the held wake source is released and `key_is_down` cleared. -/
def keycombo_event (s : keycombo_state) (type code : Nat) (value : Int) :
    keycombo_state :=
  if type ≠ EV_KEY then s
  else if KEY_MAX ≤ code then s
  else if s.keybit code = false then s
  else if s.key code = decide (value ≠ 0) then s
  else
    let s1 := updateCounts s code value
    if comboDone s1 then
      { s1 with
        combo_held_wake_source := true
        key_is_down := 1
        key_down_work := if s1.key_down_work = DWork.idle then DWork.timer else s1.key_down_work }
    else if s1.key_is_down ≠ 0 then
      if s1.key_down_work ≠ DWork.idle then
        { s1 with
          key_down_work := DWork.idle
          combo_held_wake_source := false
          key_is_down := 0 }
      else
        { s1 with
          combo_up_wake_source := true
          key_up_work := true
          combo_held_wake_source := false
          key_is_down := 0 }
    else s1

/-- The all-zero state produced by `kzalloc(sizeof(*state), GFP_KERNEL)` in
`keycombo_probe` (line 292). -/
def initState : keycombo_state where
  keybit := fun _ => false
  upbit := fun _ => false
  key := fun _ => false
  key_down_target := 0
  key_down := 0
  key_up := 0
  key_is_down := 0
  key_down_work := DWork.idle
  key_up_work := false
  key_down_fn := false
  key_up_fn := false
  combo_held_wake_source := false
  combo_up_wake_source := false

/-- The `keys_down` loop of `keycombo_probe` (lines 300–306):
`while ((key = *keyp++))` walks the zero-terminated array (the end of the
Lean list also terminates the scan), skips `key >= KEY_MAX`, and otherwise
increments `key_down_target` and sets the code's `keybit`. -/
def setDownKeys (s : keycombo_state) : List Nat → keycombo_state
  | [] => s
  | k :: ks =>
    if k = 0 then s
    else if KEY_MAX ≤ k then setDownKeys s ks
    else
      setDownKeys
        { s with
          key_down_target := s.key_down_target + 1
          keybit := fun c => if c = k then true else s.keybit c } ks

/-- The `keys_up` loop of `keycombo_probe` (lines 307–315): same
zero-terminated scan, skipping `key >= KEY_MAX`, setting both `keybit` and
`upbit` for each remaining code. -/
def setUpKeys (s : keycombo_state) : List Nat → keycombo_state
  | [] => s
  | k :: ks =>
    if k = 0 then s
    else if KEY_MAX ≤ k then setUpKeys s ks
    else
      setUpKeys
        { s with
          keybit := fun c => if c = k then true else s.keybit c
          upbit := fun c => if c = k then true else s.upbit c } ks

/-- The state built by `keycombo_probe` from the platform data: the two
key loops over the zeroed state, then the callback pointers copied when
non-NULL (lines 326–331; `kdf`/`kuf` record non-NULLness of
`pdata->key_down_fn` / `pdata->key_up_fn`).  `keys_up` is an `Option`
because the up loop is guarded by `if (pdata->keys_up)`. -/
def probeState (keys_down : List Nat) (keys_up : Option (List Nat))
    (kdf kuf : Bool) : keycombo_state :=
  let s := setDownKeys initState keys_down
  let s :=
    match keys_up with
    | none => s
    | some ku => setUpKeys s ku
  { s with key_down_fn := kdf, key_up_fn := kuf }

/-- Embedding of the construction logic of `keycombo_probe`
(lines 292–351).  The modelled fragment — key-list processing and state
set-up — has no failure path in the C code: every `goto err_*` there stems
from an external collaborator (allocation, device tree, input-handler
registration), so the modelled probe always returns the built state. -/
def keycombo_probe (keys_down : List Nat) (keys_up : Option (List Nat))
    (kdf kuf : Bool) : Except Int keycombo_state :=
  Except.ok (probeState keys_down keys_up kdf kuf)

/-- Embedding of the matching loop of `keycombo_connect` (lines 128–133):
`for (i = 0; i < KEY_MAX; i++)` breaks at the first code set in both the
instance's `keybit` and the device's `keybit`; falling off the end
(`i == KEY_MAX`) returns `-ENODEV` before any handle is allocated or
registered. -/
def keycombo_connect (s : keycombo_state) (dev_keybit : Nat → Bool) :
    Except Int Unit :=
  match (List.range KEY_MAX).find? (fun i => s.keybit i && dev_keybit i) with
  | none => Except.error (-ENODEV)
  | some _ => Except.ok ()

/-- A raw input event as delivered to `keycombo_event`:
`(type, code, value)`. -/
def processEvents (s : keycombo_state) (evs : List (Nat × Nat × Int)) :
    keycombo_state :=
  evs.foldl (fun s e => keycombo_event s e.1 e.2.1 e.2.2) s

/-- Number of down-set keys (tracked, not in the up-set) whose pressed
bit is currently set, over the processed code domain `0 ≤ c < KEY_MAX`. -/
def downKeysPressed (s : keycombo_state) : Nat :=
  ((Finset.range KEY_MAX).filter
    (fun c => s.keybit c = true ∧ s.upbit c = false ∧ s.key c = true)).card

/-- Number of up-set keys whose pressed bit is currently set, over the
processed code domain. -/
def upKeysPressed (s : keycombo_state) : Nat :=
  ((Finset.range KEY_MAX).filter
    (fun c => s.upbit c = true ∧ s.key c = true)).card

/-- The counter invariant of claim C1: the `key_down` / `key_up` counters
agree with the per-key pressed bits. -/
def countsInv (s : keycombo_state) : Prop :=
  s.key_down = (downKeysPressed s : Int) ∧ s.key_up = (upKeysPressed s : Int)

/-- The phase invariant of claim C5: `key_is_down` is a 0/1 flag, and is 1
only when the combo condition holds. -/
def kdInv (s : keycombo_state) : Prop :=
  (s.key_is_down = 0 ∨ s.key_is_down = 1)
  ∧ (s.key_is_down = 1 → comboDone s)

/-- Whole-system configuration: driver state plus the trace of user
callbacks invoked so far by `do_key_down` / `do_key_up`. -/
structure Sys where
  st : keycombo_state
  trace : List Lab

/-- Callback invocations that the currently pending work items will
produce, in workqueue execution order.  The queue produced by
`alloc_ordered_workqueue` runs items in queueing order; `key_up_work` is
only ever queued while `key_down_work` is not pending (the break branch
queues it exactly when `cancel_delayed_work` failed), so when both are
pending the up item precedes the down item. -/
def pendingLabs (s : keycombo_state) : List Lab :=
  (if s.key_up_work then [Lab.deact] else [])
    ++ (if s.key_down_work ≠ DWork.idle then [Lab.act] else [])

/-- One transition of the whole system: a `keycombo_event` call, the
activate delay timer expiring (the delayed work moves onto the ordered
workqueue), or the single-threaded worker running the front work item.
`do_key_down` (line 52) invokes `key_down_fn` when non-NULL; `do_key_up`
(line 62) invokes `key_up_fn` when non-NULL and releases the releasing
wake source.  The worker marks a work item not-pending just before running
its function, so a run step atomically clears the pending status. -/
inductive Step : Sys → Sys → Prop
  | event (y : Sys) (type code : Nat) (value : Int) :
      Step y ⟨keycombo_event y.st type code value, y.trace⟩
  | fire_timer (y : Sys) (h : y.st.key_down_work = DWork.timer) :
      Step y ⟨{ y.st with key_down_work := DWork.queued }, y.trace⟩
  | run_key_down (y : Sys) (h : y.st.key_down_work = DWork.queued)
      (hu : y.st.key_up_work = false) :
      Step y ⟨{ y.st with key_down_work := DWork.idle },
        y.trace ++ if y.st.key_down_fn then [Lab.act] else []⟩
  | run_key_up (y : Sys) (h : y.st.key_up_work = true) :
      Step y ⟨{ y.st with key_up_work := false, combo_up_wake_source := false },
        y.trace ++ if y.st.key_up_fn then [Lab.deact] else []⟩

/-- Reachability by any interleaving of events, timer expiry and work
execution. -/
def Reach : Sys → Sys → Prop :=
  Relation.ReflTransGen Step

/-- The system right after `keycombo_probe`, with both callbacks
configured: freshly built state, no work pending, no callback invoked
yet. -/
def initSys (keys_down : List Nat) (keys_up : Option (List Nat)) : Sys :=
  ⟨probeState keys_down keys_up true true, []⟩

/-- Swap the two callback kinds. -/
def flipLab : Lab → Lab
  | Lab.act => Lab.deact
  | Lab.deact => Lab.act

/-- Predicate `altFrom e w`: `w` is a strictly alternating word whose
first element is `e`. -/
def altFrom : Lab → List Lab → Bool
  | _, [] => true
  | e, x :: t => (x == e) && altFrom (flipLab e) t

/-- The inductive invariant behind claim C3, for a system whose callbacks
are both configured: the trace extended by the pending callback
invocations is an alternating word starting with activate; its parity
matches `key_is_down`; `key_is_down` is a 0/1 flag set only when the
combo condition holds; a pending activate work implies `key_is_down`;
and a queued deactivate work with `key_is_down` set implies the activate
work is pending (it was re-queued after the deactivate was queued). -/
def SysInv (y : Sys) : Prop :=
  altFrom Lab.act (y.trace ++ pendingLabs y.st) = true
  ∧ (y.st.key_is_down = 1 ↔ ¬ Even (y.trace ++ pendingLabs y.st).length)
  ∧ (y.st.key_is_down = 0 ∨ y.st.key_is_down = 1)
  ∧ (y.st.key_is_down = 1 → comboDone y.st)
  ∧ (y.st.key_down_work ≠ DWork.idle → y.st.key_is_down = 1)
  ∧ (y.st.key_up_work = true → y.st.key_is_down = 1 →
      y.st.key_down_work ≠ DWork.idle)
  ∧ y.st.key_down_fn = true ∧ y.st.key_up_fn = true

/-! ### Frame facts about `updateCounts` -/

@[simp]
lemma updateCounts_key_is_down (s : keycombo_state) (c : Nat) (v : Int) :
    (updateCounts s c v).key_is_down = s.key_is_down := by
  unfold updateCounts
  split <;> rfl

@[simp]
lemma updateCounts_key_down_work (s : keycombo_state) (c : Nat) (v : Int) :
    (updateCounts s c v).key_down_work = s.key_down_work := by
  unfold updateCounts
  split <;> rfl

@[simp]
lemma updateCounts_key_up_work (s : keycombo_state) (c : Nat) (v : Int) :
    (updateCounts s c v).key_up_work = s.key_up_work := by
  unfold updateCounts
  split <;> rfl

@[simp]
lemma updateCounts_keybit (s : keycombo_state) (c : Nat) (v : Int) :
    (updateCounts s c v).keybit = s.keybit := by
  unfold updateCounts
  split <;> rfl

@[simp]
lemma updateCounts_upbit (s : keycombo_state) (c : Nat) (v : Int) :
    (updateCounts s c v).upbit = s.upbit := by
  unfold updateCounts
  split <;> rfl

@[simp]
lemma updateCounts_key_down_target (s : keycombo_state) (c : Nat) (v : Int) :
    (updateCounts s c v).key_down_target = s.key_down_target := by
  unfold updateCounts
  split <;> rfl

@[simp]
lemma updateCounts_key_down_fn (s : keycombo_state) (c : Nat) (v : Int) :
    (updateCounts s c v).key_down_fn = s.key_down_fn := by
  unfold updateCounts
  split <;> rfl

@[simp]
lemma updateCounts_key_up_fn (s : keycombo_state) (c : Nat) (v : Int) :
    (updateCounts s c v).key_up_fn = s.key_up_fn := by
  unfold updateCounts
  split <;> rfl

@[simp]
lemma updateCounts_combo_held (s : keycombo_state) (c : Nat) (v : Int) :
    (updateCounts s c v).combo_held_wake_source = s.combo_held_wake_source := by
  unfold updateCounts
  split <;> rfl

@[simp]
lemma updateCounts_combo_up (s : keycombo_state) (c : Nat) (v : Int) :
    (updateCounts s c v).combo_up_wake_source = s.combo_up_wake_source := by
  unfold updateCounts
  split <;> rfl

@[simp]
lemma updateCounts_key (s : keycombo_state) (c : Nat) (v : Int) :
    (updateCounts s c v).key = fun x => if x = c then !(s.key x) else s.key x := by
  unfold updateCounts
  split <;> rfl

/-! ### Basic shape lemmas about `keycombo_event` -/

/-- The event handler ignores duplicate events on tracked codes: when the
recorded pressed bit already equals the event's (normalised) value, the
guard at line 87 returns without any change. -/
lemma keycombo_event_dup (s : keycombo_state) (t c : Nat) (v : Int)
    (hdup : s.key c = decide (v ≠ 0)) :
    keycombo_event s t c v = s := by
  unfold keycombo_event
  by_cases h1 : t ≠ EV_KEY
  · rw [if_pos h1]
  · rw [if_neg h1]
    by_cases h2 : KEY_MAX ≤ c
    · rw [if_pos h2]
    · rw [if_neg h2]
      by_cases h3 : s.keybit c = false
      · rw [if_pos h3]
      · rw [if_neg h3, if_pos hdup]

/-- Every call either leaves the state untouched (one of the early
returns) or went through the bit flip, in which case the processed
code's pressed bit now equals the event's value and `keybit` is
untouched. -/
lemma keycombo_event_cases (s : keycombo_state) (t c : Nat) (v : Int) :
    keycombo_event s t c v = s ∨
      ((keycombo_event s t c v).keybit = s.keybit
        ∧ (keycombo_event s t c v).key c = decide (v ≠ 0)) := by
  unfold keycombo_event
  by_cases h1 : t ≠ EV_KEY
  · exact Or.inl (by rw [if_pos h1])
  · rw [if_neg h1]
    by_cases h2 : KEY_MAX ≤ c
    · exact Or.inl (by rw [if_pos h2])
    · rw [if_neg h2]
      by_cases h3 : s.keybit c = false
      · exact Or.inl (by rw [if_pos h3])
      · rw [if_neg h3]
        by_cases h4 : s.key c = decide (v ≠ 0)
        · exact Or.inl (by rw [if_pos h4])
        · rw [if_neg h4]
          refine Or.inr ?_
          have hkey : (updateCounts s c v).key c = decide (v ≠ 0) := by
            rw [updateCounts_key]
            simp only [if_pos rfl]
            cases hb : s.key c <;> cases hv : decide (v ≠ 0) <;> simp_all
          dsimp only
          split_ifs <;>
            exact ⟨by simp, by simpa using hkey⟩

/-- Claim C10: events whose type is not `EV_KEY`, and events whose code is
exactly `KEY_MAX`, are rejected by the guards at lines 77–81 before the
lock is taken: the state (counters, bits, phase, work items, wake sources)
is returned unchanged. -/
theorem keycombo_event_non_key_or_keymax (s : keycombo_state)
    (type code : Nat) (value : Int) (h : type ≠ EV_KEY ∨ code = KEY_MAX) :
    keycombo_event s type code value = s := by
  unfold keycombo_event
  rcases h with h | h
  · rw [if_pos h]
  · by_cases ht : type ≠ EV_KEY
    · rw [if_pos ht]
    · rw [if_neg ht, if_pos (le_of_eq h.symm)]

/-- Witness for `keycombo_event_non_key_or_keymax` at a concrete input. -/
theorem keycombo_event_non_key_or_keymax_witness :
    ((0 : Nat) ≠ EV_KEY ∨ (5 : Nat) = KEY_MAX)
      ∧ keycombo_event initState 0 5 1 = initState :=
  ⟨Or.inl (by decide),
    keycombo_event_non_key_or_keymax initState 0 5 1 (Or.inl (by decide))⟩

/-- Claim C8: events on codes outside `0 ≤ code < KEY_MAX`, or on codes
whose `keybit` is not set (not in the tracked set), leave every field of
the state unchanged: no counter, bit, phase, work item or wake source is
touched. -/
theorem keycombo_event_untracked (s : keycombo_state)
    (type code : Nat) (value : Int)
    (h : KEY_MAX ≤ code ∨ s.keybit code = false) :
    keycombo_event s type code value = s := by
  unfold keycombo_event
  by_cases ht : type ≠ EV_KEY
  · rw [if_pos ht]
  · rw [if_neg ht]
    rcases h with h | h
    · rw [if_pos h]
    · by_cases hc : KEY_MAX ≤ code
      · rw [if_pos hc]
      · rw [if_neg hc, if_pos h]

/-- Witness for `keycombo_event_untracked` at a concrete input. -/
theorem keycombo_event_untracked_witness :
    (KEY_MAX ≤ 5 ∨ initState.keybit 5 = false)
      ∧ keycombo_event initState EV_KEY 5 1 = initState :=
  ⟨Or.inr rfl, keycombo_event_untracked initState EV_KEY 5 1 (Or.inr rfl)⟩

/-- Claim C4: a duplicate event on a tracked code (the event's
pressed/released value already equals the recorded pressed bit) is a
complete no-op, and processing any event twice equals processing it
once. -/
theorem keycombo_event_duplicate_idem (s : keycombo_state)
    (type code : Nat) (value : Int) :
    (s.keybit code = true → s.key code = decide (value ≠ 0) →
        keycombo_event s type code value = s)
    ∧ keycombo_event (keycombo_event s type code value) type code value
        = keycombo_event s type code value := by
  constructor
  · intro _ hdup
    exact keycombo_event_dup s type code value hdup
  · rcases keycombo_event_cases s type code value with h | ⟨_, hk⟩
    · rw [h]
      exact h
    · exact keycombo_event_dup _ type code value hk

/-- Witness for `keycombo_event_duplicate_idem` at a concrete input. -/
theorem keycombo_event_duplicate_idem_witness :
    (probeState [5] none true true).keybit 5 = true
    ∧ (probeState [5] none true true).key 5 = decide ((0 : Int) ≠ 0)
    ∧ keycombo_event (probeState [5] none true true) EV_KEY 5 0
        = probeState [5] none true true :=
  ⟨by decide, by decide,
    (keycombo_event_duplicate_idem (probeState [5] none true true) EV_KEY 5 0).1
      (by decide) (by decide)⟩

/-- Shape of the handler's result in the combo-break branch
(lines 107–114): the event passed all guards, the combo condition is false
after the counter update, and `key_is_down` was set. -/
lemma keycombo_event_break_eq (s : keycombo_state) (type code : Nat) (value : Int)
    (h1 : ¬ type ≠ EV_KEY) (h2 : ¬ KEY_MAX ≤ code)
    (h3 : ¬ s.keybit code = false) (h4 : ¬ s.key code = decide (value ≠ 0))
    (h6 : ¬ comboDone (updateCounts s code value))
    (h5 : s.key_is_down ≠ 0) :
    keycombo_event s type code value =
      if (updateCounts s code value).key_down_work ≠ DWork.idle then
        { updateCounts s code value with
          key_down_work := DWork.idle
          combo_held_wake_source := false
          key_is_down := 0 }
      else
        { updateCounts s code value with
          combo_up_wake_source := true
          key_up_work := true
          combo_held_wake_source := false
          key_is_down := 0 } := by
  unfold keycombo_event
  rw [if_neg h1, if_neg h2, if_neg h3, if_neg h4]
  dsimp only
  rw [if_neg h6, if_pos (by simpa using h5)]

/-- Claim C2: when an event that passed all guards makes the combo
condition false while `key_is_down == 1`, the handler cancels the delayed
activate work if it is still pending; exactly when that cancellation fails
(the work is no longer pending) it activates the releasing wake source and
queues the deactivate work; and in both cases it deactivates the held wake
source and clears `key_is_down`. -/
theorem keycombo_event_break_combo (s : keycombo_state)
    (type code : Nat) (value : Int)
    (h1 : type = EV_KEY) (h2 : code < KEY_MAX)
    (h3 : s.keybit code = true) (h4 : s.key code ≠ decide (value ≠ 0))
    (h5 : s.key_is_down = 1)
    (h6 : ¬ comboDone (updateCounts s code value)) :
    (keycombo_event s type code value).key_is_down = 0
    ∧ (keycombo_event s type code value).combo_held_wake_source = false
    ∧ (s.key_down_work ≠ DWork.idle →
        (keycombo_event s type code value).key_down_work = DWork.idle
        ∧ (keycombo_event s type code value).key_up_work = s.key_up_work
        ∧ (keycombo_event s type code value).combo_up_wake_source
            = s.combo_up_wake_source)
    ∧ (s.key_down_work = DWork.idle →
        (keycombo_event s type code value).key_up_work = true
        ∧ (keycombo_event s type code value).combo_up_wake_source = true) := by
  have e := keycombo_event_break_eq s type code value
    (by simp [h1]) (not_le.mpr h2) (by simp [h3]) h4 h6 (by simp [h5])
  rw [e]
  by_cases hw : s.key_down_work = DWork.idle
  · rw [if_neg (by simp [hw])]
    refine ⟨rfl, rfl, fun hcontra => absurd hw hcontra, fun _ => ⟨rfl, rfl⟩⟩
  · rw [if_pos (by simp [hw])]
    exact ⟨rfl, rfl, fun _ => ⟨rfl, by simp, by simp⟩,
      fun hcontra => absurd hcontra hw⟩

/-- Witness for `keycombo_event_break_combo`: press the single down key of
a freshly built instance (the combo forms), then release it. -/
theorem keycombo_event_break_combo_witness :
    (processEvents (probeState [5] none true true) [(EV_KEY, 5, 1)]).keybit 5 = true
    ∧ (processEvents (probeState [5] none true true) [(EV_KEY, 5, 1)]).key_is_down = 1
    ∧ ¬ comboDone (updateCounts
        (processEvents (probeState [5] none true true) [(EV_KEY, 5, 1)]) 5 0)
    ∧ (keycombo_event
        (processEvents (probeState [5] none true true) [(EV_KEY, 5, 1)])
        EV_KEY 5 0).key_is_down = 0
    ∧ (keycombo_event
        (processEvents (probeState [5] none true true) [(EV_KEY, 5, 1)])
        EV_KEY 5 0).combo_held_wake_source = false :=
  ⟨by decide, by decide, by decide,
    (keycombo_event_break_combo _ EV_KEY 5 0 rfl (by decide) (by decide)
      (by decide) (by decide) (by decide)).1,
    (keycombo_event_break_combo _ EV_KEY 5 0 rfl (by decide) (by decide)
      (by decide) (by decide) (by decide)).2.1⟩

/-- Evaluating `updateCounts` on an up-set code: flip the bit, adjust `key_up`. -/
lemma updateCounts_up (s : keycombo_state) (c : Nat) (v : Int)
    (h : s.upbit c = true) :
    updateCounts s c v =
      { s with
        key := fun x => if x = c then !(s.key x) else s.key x
        key_up := if v ≠ 0 then s.key_up + 1 else s.key_up - 1 } := by
  unfold updateCounts
  rw [if_pos h]

/-- Evaluating `updateCounts` on a down-set code: flip the bit, adjust `key_down`. -/
lemma updateCounts_down (s : keycombo_state) (c : Nat) (v : Int)
    (h : s.upbit c = false) :
    updateCounts s c v =
      { s with
        key := fun x => if x = c then !(s.key x) else s.key x
        key_down := if v ≠ 0 then s.key_down + 1 else s.key_down - 1 } := by
  unfold updateCounts
  rw [if_neg (by simp [h])]

/-- Shape of the handler's result when the guards pass, the combo
condition is false after the update and `key_is_down` is clear: only the
bit/counter update happens. -/
lemma keycombo_event_quiet_eq (s : keycombo_state) (type code : Nat) (value : Int)
    (h1 : ¬ type ≠ EV_KEY) (h2 : ¬ KEY_MAX ≤ code)
    (h3 : ¬ s.keybit code = false) (h4 : ¬ s.key code = decide (value ≠ 0))
    (h6 : ¬ comboDone (updateCounts s code value))
    (h5 : s.key_is_down = 0) :
    keycombo_event s type code value = updateCounts s code value := by
  unfold keycombo_event
  rw [if_neg h1, if_neg h2, if_neg h3, if_neg h4]
  dsimp only
  rw [if_neg h6, if_neg (by simp [h5])]

/-- Shape of the handler's result when the guards pass and the combo
condition holds after the update (lines 101–106): hold the wake source,
set `key_is_down`, arm the activate timer if not already pending. -/
lemma keycombo_event_done_eq (s : keycombo_state) (type code : Nat) (value : Int)
    (h1 : ¬ type ≠ EV_KEY) (h2 : ¬ KEY_MAX ≤ code)
    (h3 : ¬ s.keybit code = false) (h4 : ¬ s.key code = decide (value ≠ 0))
    (h6 : comboDone (updateCounts s code value)) :
    keycombo_event s type code value =
      { updateCounts s code value with
        combo_held_wake_source := true
        key_is_down := 1
        key_down_work :=
          if (updateCounts s code value).key_down_work = DWork.idle then DWork.timer
          else (updateCounts s code value).key_down_work } := by
  unfold keycombo_event
  rw [if_neg h1, if_neg h2, if_neg h3, if_neg h4]
  dsimp only
  rw [if_pos h6]

/-- The down-key loop adds one to `key_down_target` for every entry of
the zero-terminated prefix that is below `KEY_MAX`. -/
lemma setDownKeys_target (l : List Nat) (s : keycombo_state) :
    (setDownKeys s l).key_down_target =
      s.key_down_target +
        (((l.takeWhile fun k => decide (k ≠ 0)).filter
            fun k => decide (k < KEY_MAX)).length : Int) := by
  induction l generalizing s with
  | nil => simp [setDownKeys]
  | cons k ks ih =>
    by_cases hk : k = 0
    · subst hk
      simp [setDownKeys, List.takeWhile_cons]
    · by_cases hr : KEY_MAX ≤ k
      · rw [setDownKeys, if_neg hk, if_pos hr, ih]
        simp [List.takeWhile_cons, hk, List.filter_cons, not_lt.mpr hr]
      · rw [setDownKeys, if_neg hk, if_neg hr, ih]
        have h1 : List.takeWhile (fun k => decide (k ≠ 0)) (k :: ks)
            = k :: List.takeWhile (fun k => decide (k ≠ 0)) ks := by
          simp [List.takeWhile_cons, hk]
        rw [h1, List.filter_cons, if_pos (by simp [not_le.mp hr])]
        rw [List.length_cons]
        push_cast
        ring

/-- The up-key loop never touches `key_down_target`. -/
lemma setUpKeys_target (l : List Nat) (s : keycombo_state) :
    (setUpKeys s l).key_down_target = s.key_down_target := by
  induction l generalizing s with
  | nil => rfl
  | cons k ks ih =>
    rw [setUpKeys]
    by_cases hk : k = 0
    · rw [if_pos hk]
    · rw [if_neg hk]
      by_cases hr : KEY_MAX ≤ k
      · rw [if_pos hr, ih]
      · rw [if_neg hr, ih]

/-- The down-key loop never sets `keybit` at or beyond `KEY_MAX`. -/
lemma setDownKeys_keybit_invalid (l : List Nat) (s : keycombo_state)
    (c : Nat) (hc : KEY_MAX ≤ c) :
    (setDownKeys s l).keybit c = s.keybit c := by
  induction l generalizing s with
  | nil => rfl
  | cons k ks ih =>
    rw [setDownKeys]
    by_cases hk : k = 0
    · rw [if_pos hk]
    · rw [if_neg hk]
      by_cases hr : KEY_MAX ≤ k
      · rw [if_pos hr, ih]
      · rw [if_neg hr, ih]
        have : c ≠ k := by omega
        simp [this]

/-- The up-key loop never sets `keybit` at or beyond `KEY_MAX`. -/
lemma setUpKeys_keybit_invalid (l : List Nat) (s : keycombo_state)
    (c : Nat) (hc : KEY_MAX ≤ c) :
    (setUpKeys s l).keybit c = s.keybit c := by
  induction l generalizing s with
  | nil => rfl
  | cons k ks ih =>
    rw [setUpKeys]
    by_cases hk : k = 0
    · rw [if_pos hk]
    · rw [if_neg hk]
      by_cases hr : KEY_MAX ≤ k
      · rw [if_pos hr, ih]
      · rw [if_neg hr, ih]
        have : c ≠ k := by omega
        simp [this]

/-- Claim C6 counterexample: probing with an empty `keys_down` list does
not fail — there is no emptiness check anywhere in `keycombo_probe` — and
the instance is created with `key_down_target = 0`. -/
theorem keycombo_probe_empty_down_succeeds :
    keycombo_probe [] none false false = Except.ok initState
    ∧ initState.key_down_target = 0 :=
  ⟨rfl, rfl⟩

/-- Claim C6 amended: construction never fails in the modelled logic —
even an empty down-set yields an instance — while key codes at or beyond
`KEY_MAX` are silently skipped: they never enter the tracked set and
down-list entries at or beyond `KEY_MAX` do not count towards
`key_down_target`. -/
theorem keycombo_probe_skips_invalid (kd : List Nat) (ku : Option (List Nat))
    (kdf kuf : Bool) :
    keycombo_probe kd ku kdf kuf = Except.ok (probeState kd ku kdf kuf)
    ∧ (probeState kd ku kdf kuf).key_down_target =
        (((kd.takeWhile fun k => decide (k ≠ 0)).filter
            fun k => decide (k < KEY_MAX)).length : Int)
    ∧ ∀ c : Nat, KEY_MAX ≤ c → (probeState kd ku kdf kuf).keybit c = false := by
  refine ⟨rfl, ?_, ?_⟩
  · show (probeState kd ku kdf kuf).key_down_target = _
    unfold probeState
    cases ku with
    | none => simp [setDownKeys_target, initState]
    | some l => simp [setUpKeys_target, setDownKeys_target, initState]
  · intro c hc
    unfold probeState
    cases ku with
    | none => simp [setDownKeys_keybit_invalid _ _ c hc, initState]
    | some l =>
      simp [setUpKeys_keybit_invalid _ _ c hc,
        setDownKeys_keybit_invalid _ _ c hc, initState]

/-- Witness for `keycombo_probe_skips_invalid` at a concrete input:
code 800 (≥ KEY_MAX) is skipped, code 5 is kept. -/
theorem keycombo_probe_skips_invalid_witness :
    keycombo_probe [800, 5] none true true
        = Except.ok (probeState [800, 5] none true true)
    ∧ (probeState [800, 5] none true true).key_down_target = 1
    ∧ (probeState [800, 5] none true true).keybit 800 = false := by
  obtain ⟨e, ht, hb⟩ := keycombo_probe_skips_invalid [800, 5] none true true
  exact ⟨e, by rw [ht]; decide, hb 800 (by decide)⟩

/-- Claim C7 counterexample: with code 5 in both `keys_down` and
`keys_up`, the built instance has `upbit 5` set, so pressing key 5 updates
`key_up`, not `key_down` — the code takes the up role, not the down
role. -/
theorem keycombo_event_shared_code_up_role :
    (probeState [5] (some [5]) true true).upbit 5 = true
    ∧ (keycombo_event (probeState [5] (some [5]) true true) EV_KEY 5 1).key_down = 0
    ∧ (keycombo_event (probeState [5] (some [5]) true true) EV_KEY 5 1).key_up = 1 :=
  ⟨by decide, by decide, by decide⟩

/-- Claim C7 amended: a code configured in both lists still counts towards
`key_down_target`, but at event time it is treated as an up-set member:
pressing it increments `key_up` and leaves `key_down` unchanged. -/
theorem keycombo_event_shared_code_up_role_general (c : Nat) (kdf kuf : Bool)
    (h0 : c ≠ 0) (hc : c < KEY_MAX) :
    (probeState [c] (some [c]) kdf kuf).upbit c = true
    ∧ (probeState [c] (some [c]) kdf kuf).key_down_target = 1
    ∧ (keycombo_event (probeState [c] (some [c]) kdf kuf) EV_KEY c 1).key_up
        = (probeState [c] (some [c]) kdf kuf).key_up + 1
    ∧ (keycombo_event (probeState [c] (some [c]) kdf kuf) EV_KEY c 1).key_down
        = (probeState [c] (some [c]) kdf kuf).key_down := by
  have hnl : ¬ KEY_MAX ≤ c := not_le.mpr hc
  have hup : (probeState [c] (some [c]) kdf kuf).upbit c = true := by
    simp [probeState, setDownKeys, setUpKeys, h0, hnl]
  have hkb : (probeState [c] (some [c]) kdf kuf).keybit c = true := by
    simp [probeState, setDownKeys, setUpKeys, h0, hnl]
  have htg : (probeState [c] (some [c]) kdf kuf).key_down_target = 1 := by
    simp [probeState, setDownKeys, setUpKeys, h0, hnl, initState]
  have hkey : (probeState [c] (some [c]) kdf kuf).key c = false := by
    simp [probeState, setDownKeys, setUpKeys, h0, hnl, initState]
  have hkd : (probeState [c] (some [c]) kdf kuf).key_down = 0 := by
    simp [probeState, setDownKeys, setUpKeys, h0, hnl, initState]
  have hkid : (probeState [c] (some [c]) kdf kuf).key_is_down = 0 := by
    simp [probeState, setDownKeys, setUpKeys, h0, hnl, initState]
  have hnd : ¬ comboDone (updateCounts (probeState [c] (some [c]) kdf kuf) c 1) := by
    rw [updateCounts_up _ c 1 hup]
    intro hcd
    have h := hcd.1
    simp only at h
    rw [hkd, htg] at h
    norm_num at h
  have he : keycombo_event (probeState [c] (some [c]) kdf kuf) EV_KEY c 1
      = updateCounts (probeState [c] (some [c]) kdf kuf) c 1 :=
    keycombo_event_quiet_eq _ EV_KEY c 1 (by simp) hnl (by simp [hkb])
      (by simp [hkey]) hnd hkid
  refine ⟨hup, htg, ?_, ?_⟩
  · rw [he, updateCounts_up _ c 1 hup]
    norm_num
  · rw [he, updateCounts_up _ c 1 hup]

/-- Any failed guard makes the handler the identity. -/
lemma keycombo_event_guard_eq (s : keycombo_state) (t c : Nat) (v : Int)
    (h : t ≠ EV_KEY ∨ KEY_MAX ≤ c ∨ s.keybit c = false
        ∨ s.key c = decide (v ≠ 0)) :
    keycombo_event s t c v = s := by
  unfold keycombo_event
  by_cases h1 : t ≠ EV_KEY
  · rw [if_pos h1]
  · rw [if_neg h1]
    by_cases h2 : KEY_MAX ≤ c
    · rw [if_pos h2]
    · rw [if_neg h2]
      by_cases h3 : s.keybit c = false
      · rw [if_pos h3]
      · rw [if_neg h3]
        rcases h with h | h | h | h
        · exact absurd h h1
        · exact absurd h h2
        · exact absurd h h3
        · rw [if_pos h]

/-- Complete case analysis of one `keycombo_event` call: either a guard
fired and nothing happened, or the bit flip went through and exactly one
of the three outcomes occurred (combo formed; combo broken with the
cancel succeeding or failing; plain update with `key_is_down` clear). -/
lemma keycombo_event_main (s : keycombo_state) (t c : Nat) (v : Int) :
    keycombo_event s t c v = s
    ∨ (c < KEY_MAX ∧ s.keybit c = true ∧ s.key c ≠ decide (v ≠ 0)
      ∧ ((comboDone (updateCounts s c v)
          ∧ keycombo_event s t c v =
            { updateCounts s c v with
              combo_held_wake_source := true
              key_is_down := 1
              key_down_work :=
                if (updateCounts s c v).key_down_work = DWork.idle then DWork.timer
                else (updateCounts s c v).key_down_work })
        ∨ (¬ comboDone (updateCounts s c v) ∧ s.key_is_down ≠ 0
            ∧ s.key_down_work ≠ DWork.idle
            ∧ keycombo_event s t c v =
              { updateCounts s c v with
                key_down_work := DWork.idle
                combo_held_wake_source := false
                key_is_down := 0 })
        ∨ (¬ comboDone (updateCounts s c v) ∧ s.key_is_down ≠ 0
            ∧ s.key_down_work = DWork.idle
            ∧ keycombo_event s t c v =
              { updateCounts s c v with
                combo_up_wake_source := true
                key_up_work := true
                combo_held_wake_source := false
                key_is_down := 0 })
        ∨ (¬ comboDone (updateCounts s c v) ∧ s.key_is_down = 0
            ∧ keycombo_event s t c v = updateCounts s c v))) := by
  by_cases h1 : t ≠ EV_KEY
  · exact Or.inl (keycombo_event_guard_eq s t c v (Or.inl h1))
  · by_cases h2 : KEY_MAX ≤ c
    · exact Or.inl (keycombo_event_guard_eq s t c v (Or.inr (Or.inl h2)))
    · by_cases h3 : s.keybit c = false
      · exact Or.inl (keycombo_event_guard_eq s t c v (Or.inr (Or.inr (Or.inl h3))))
      · by_cases h4 : s.key c = decide (v ≠ 0)
        · exact Or.inl (keycombo_event_guard_eq s t c v (Or.inr (Or.inr (Or.inr h4))))
        · refine Or.inr ⟨not_le.mp h2, by simpa using h3, h4, ?_⟩
          by_cases h6 : comboDone (updateCounts s c v)
          · exact Or.inl ⟨h6, keycombo_event_done_eq s t c v h1 h2 h3 h4 h6⟩
          · by_cases h5 : s.key_is_down = 0
            · exact Or.inr (Or.inr (Or.inr ⟨h6, h5,
                keycombo_event_quiet_eq s t c v h1 h2 h3 h4 h6 h5⟩))
            · have he := keycombo_event_break_eq s t c v h1 h2 h3 h4 h6 (by simpa using h5)
              by_cases hw : s.key_down_work = DWork.idle
              · refine Or.inr (Or.inr (Or.inl ⟨h6, by simpa using h5, hw, ?_⟩))
                rw [he, if_neg (by simp [hw])]
              · refine Or.inr (Or.inl ⟨h6, by simpa using h5, hw, ?_⟩)
                rw [he, if_pos (by simp [hw])]

/-- Flipping one key's bit breaks a previously satisfied combo condition:
the touched counter moves off its required value. -/
lemma comboDone_not_after_update (s : keycombo_state) (c : Nat) (v : Int)
    (h : comboDone s) : ¬ comboDone (updateCounts s c v) := by
  intro h2
  by_cases hu : s.upbit c = true
  · rw [updateCounts_up s c v hu] at h2
    have hk := h2.2
    have h0 := h.2
    dsimp only at hk
    split_ifs at hk <;> omega
  · rw [updateCounts_down s c v (by simpa using hu)] at h2
    have hk := h2.1
    have h0 := h.1
    dsimp only at hk
    split_ifs at hk <;> omega

/-- Claim C9: `keycombo_connect` decides attachment by scanning codes
`0 ≤ i < KEY_MAX` for one set in both the instance's and the device's key
bitmaps: it proceeds iff such an overlap exists, and otherwise returns
`-ENODEV` having registered nothing. -/
theorem keycombo_connect_overlap (s : keycombo_state) (dev_keybit : Nat → Bool) :
    (keycombo_connect s dev_keybit = Except.ok () ↔
      ∃ i, i < KEY_MAX ∧ s.keybit i = true ∧ dev_keybit i = true)
    ∧ (keycombo_connect s dev_keybit = Except.ok ()
        ∨ keycombo_connect s dev_keybit = Except.error (-ENODEV)) := by
  constructor
  · constructor
    · intro h
      unfold keycombo_connect at h
      cases hf : (List.range KEY_MAX).find? (fun i => s.keybit i && dev_keybit i) with
      | none =>
        rw [hf] at h
        simp at h
      | some x =>
        have hpx := List.find?_some hf
        have hmem := List.mem_of_find?_eq_some hf
        have hpx2 : s.keybit x = true ∧ dev_keybit x = true := by simpa using hpx
        exact ⟨x, List.mem_range.mp hmem, hpx2.1, hpx2.2⟩
    · rintro ⟨i, hi, hb, hd⟩
      unfold keycombo_connect
      cases hf : (List.range KEY_MAX).find? (fun i => s.keybit i && dev_keybit i) with
      | none =>
        have hnone := List.find?_eq_none.mp hf i (List.mem_range.mpr hi)
        simp [hb, hd] at hnone
      | some x => rfl
  · unfold keycombo_connect
    cases hf : (List.range KEY_MAX).find? (fun i => s.keybit i && dev_keybit i) with
    | none => exact Or.inr rfl
    | some x => exact Or.inl rfl

/-- Witness for `keycombo_connect_overlap`: an instance tracking key 5
attaches to a device supporting exactly key 5. -/
theorem keycombo_connect_overlap_witness :
    keycombo_connect (probeState [5] none true true) (fun c => c == 5)
      = Except.ok () :=
  (keycombo_connect_overlap (probeState [5] none true true) (fun c => c == 5)).1.mpr
    ⟨5, by decide, by decide, by decide⟩

/-! ### Counting machinery for the counter invariant -/

/-- Filter cardinality bumps by one when the predicate gains exactly the
element `c`. -/
lemma card_filter_eq_add_one (n c : Nat) (hc : c < n) (P Q : Nat → Prop)
    [DecidablePred P] [DecidablePred Q]
    (hagree : ∀ x, x ≠ c → (P x ↔ Q x)) (hPc : P c) (hQc : ¬ Q c) :
    ((Finset.range n).filter P).card = ((Finset.range n).filter Q).card + 1 := by
  have hins : (Finset.range n).filter P = insert c ((Finset.range n).filter Q) := by
    ext x
    simp only [Finset.mem_filter, Finset.mem_insert, Finset.mem_range]
    constructor
    · rintro ⟨hx, hPx⟩
      rcases eq_or_ne x c with rfl | hxc
      · exact Or.inl rfl
      · exact Or.inr ⟨hx, (hagree x hxc).mp hPx⟩
    · rintro (rfl | ⟨hx, hQx⟩)
      · exact ⟨hc, hPc⟩
      · rcases eq_or_ne x c with rfl | hxc
        · exact absurd hQx hQc
        · exact ⟨hx, (hagree x hxc).mpr hQx⟩
  rw [hins, Finset.card_insert_of_not_mem (by simp [hQc])]

/-- Filter cardinality is unchanged when the predicates agree away from
`c` and both reject `c`. -/
lemma card_filter_eq_of_agree (n c : Nat) (P Q : Nat → Prop)
    [DecidablePred P] [DecidablePred Q]
    (hagree : ∀ x, x ≠ c → (P x ↔ Q x)) (hPc : ¬ P c) (hQc : ¬ Q c) :
    ((Finset.range n).filter P).card = ((Finset.range n).filter Q).card := by
  refine congrArg Finset.card (Finset.filter_congr ?_)
  intro x _
  rcases eq_or_ne x c with rfl | hxc
  · exact iff_of_false hPc hQc
  · exact hagree x hxc

/-- One bit flip on a tracked code keeps the counters in sync with the
pressed-bit counts. -/
lemma updateCounts_countsInv (s : keycombo_state) (c : Nat) (v : Int)
    (hc : c < KEY_MAX) (hb : s.keybit c = true) (hnd : s.key c ≠ decide (v ≠ 0))
    (h : countsInv s) : countsInv (updateCounts s c v) := by
  obtain ⟨h1, h2⟩ := h
  by_cases hu : s.upbit c = true
  · have hkd : (updateCounts s c v).key_down = s.key_down := by
      rw [updateCounts_up s c v hu]
    have hdp : downKeysPressed (updateCounts s c v) = downKeysPressed s := by
      simp only [downKeysPressed, updateCounts_keybit, updateCounts_upbit,
        updateCounts_key]
      refine congrArg Finset.card (Finset.filter_congr ?_)
      intro x _
      rcases eq_or_ne x c with rfl | hxc
      · simp [hu]
      · simp [hxc]
    refine ⟨by rw [hkd, hdp]; exact h1, ?_⟩
    cases hkc : s.key c with
    | false =>
      have hv : v ≠ 0 := by
        cases hd : decide (v ≠ 0) with
        | false =>
          rw [hkc, hd] at hnd
          exact absurd rfl hnd
        | true => exact of_decide_eq_true hd
      have hku : (updateCounts s c v).key_up = s.key_up + 1 := by
        rw [updateCounts_up s c v hu]
        dsimp only
        rw [if_pos hv]
      have hupp : upKeysPressed (updateCounts s c v) = upKeysPressed s + 1 := by
        simp only [upKeysPressed, updateCounts_upbit, updateCounts_key]
        refine card_filter_eq_add_one KEY_MAX c hc _ _ ?_ ?_ ?_
        · intro x hxc
          simp [hxc]
        · simp [hu, hkc]
        · simp [hkc]
      rw [hku, hupp, h2]
      push_cast
      ring
    | true =>
      have hv : ¬ (v ≠ 0) := by
        cases hd : decide (v ≠ 0) with
        | false => exact of_decide_eq_false hd
        | true =>
          rw [hkc, hd] at hnd
          exact absurd rfl hnd
      have hku : (updateCounts s c v).key_up = s.key_up - 1 := by
        rw [updateCounts_up s c v hu]
        dsimp only
        rw [if_neg hv]
      have hupp : upKeysPressed s = upKeysPressed (updateCounts s c v) + 1 := by
        simp only [upKeysPressed, updateCounts_upbit, updateCounts_key]
        refine card_filter_eq_add_one KEY_MAX c hc _ _ ?_ ?_ ?_
        · intro x hxc
          simp [hxc]
        · simp [hu, hkc]
        · simp [hkc]
      rw [hku, h2, hupp]
      push_cast
      ring
  · have hu' : s.upbit c = false := by simpa using hu
    have hku : (updateCounts s c v).key_up = s.key_up := by
      rw [updateCounts_down s c v hu']
    have hup : upKeysPressed (updateCounts s c v) = upKeysPressed s := by
      simp only [upKeysPressed, updateCounts_upbit, updateCounts_key]
      refine congrArg Finset.card (Finset.filter_congr ?_)
      intro x _
      rcases eq_or_ne x c with rfl | hxc
      · simp [hu']
      · simp [hxc]
    refine ⟨?_, by rw [hku, hup]; exact h2⟩
    cases hkc : s.key c with
    | false =>
      have hv : v ≠ 0 := by
        cases hd : decide (v ≠ 0) with
        | false =>
          rw [hkc, hd] at hnd
          exact absurd rfl hnd
        | true => exact of_decide_eq_true hd
      have hkdv : (updateCounts s c v).key_down = s.key_down + 1 := by
        rw [updateCounts_down s c v hu']
        dsimp only
        rw [if_pos hv]
      have hdp : downKeysPressed (updateCounts s c v) = downKeysPressed s + 1 := by
        simp only [downKeysPressed, updateCounts_keybit, updateCounts_upbit,
          updateCounts_key]
        refine card_filter_eq_add_one KEY_MAX c hc _ _ ?_ ?_ ?_
        · intro x hxc
          simp [hxc]
        · simp [hb, hu', hkc]
        · simp [hkc]
      rw [hkdv, hdp, h1]
      push_cast
      ring
    | true =>
      have hv : ¬ (v ≠ 0) := by
        cases hd : decide (v ≠ 0) with
        | false => exact of_decide_eq_false hd
        | true =>
          rw [hkc, hd] at hnd
          exact absurd rfl hnd
      have hkdv : (updateCounts s c v).key_down = s.key_down - 1 := by
        rw [updateCounts_down s c v hu']
        dsimp only
        rw [if_neg hv]
      have hdp : downKeysPressed s = downKeysPressed (updateCounts s c v) + 1 := by
        simp only [downKeysPressed, updateCounts_keybit, updateCounts_upbit,
          updateCounts_key]
        refine card_filter_eq_add_one KEY_MAX c hc _ _ ?_ ?_ ?_
        · intro x hxc
          simp [hxc]
        · simp [hb, hu', hkc]
        · simp [hkc]
      rw [hkdv, h1, hdp]
      push_cast
      ring


/-- One `keycombo_event` call preserves the counter invariant. -/
lemma keycombo_event_countsInv (s : keycombo_state) (t c : Nat) (v : Int)
    (h : countsInv s) : countsInv (keycombo_event s t c v) := by
  rcases keycombo_event_main s t c v with he | ⟨hc, hb, hnd, hcase⟩
  · rwa [he]
  · have hu := updateCounts_countsInv s c v hc hb hnd h
    rcases hcase with ⟨_, he⟩ | ⟨_, _, _, he⟩ | ⟨_, _, _, he⟩ | ⟨_, _, he⟩ <;>
      rw [he] <;> exact hu

/-- The down-key loop touches only `keybit` and `key_down_target`. -/
lemma setDownKeys_frame (l : List Nat) (s : keycombo_state) :
    (setDownKeys s l).key = s.key
    ∧ (setDownKeys s l).key_down = s.key_down
    ∧ (setDownKeys s l).key_up = s.key_up
    ∧ (setDownKeys s l).key_is_down = s.key_is_down
    ∧ (setDownKeys s l).key_down_work = s.key_down_work
    ∧ (setDownKeys s l).key_up_work = s.key_up_work := by
  induction l generalizing s with
  | nil => exact ⟨rfl, rfl, rfl, rfl, rfl, rfl⟩
  | cons k ks ih =>
    rw [setDownKeys]
    by_cases hk : k = 0
    · rw [if_pos hk]
      exact ⟨rfl, rfl, rfl, rfl, rfl, rfl⟩
    · rw [if_neg hk]
      by_cases hr : KEY_MAX ≤ k
      · rw [if_pos hr]
        exact ih s
      · rw [if_neg hr]
        exact ih _

/-- The up-key loop touches only `keybit` and `upbit`. -/
lemma setUpKeys_frame (l : List Nat) (s : keycombo_state) :
    (setUpKeys s l).key = s.key
    ∧ (setUpKeys s l).key_down = s.key_down
    ∧ (setUpKeys s l).key_up = s.key_up
    ∧ (setUpKeys s l).key_is_down = s.key_is_down
    ∧ (setUpKeys s l).key_down_work = s.key_down_work
    ∧ (setUpKeys s l).key_up_work = s.key_up_work := by
  induction l generalizing s with
  | nil => exact ⟨rfl, rfl, rfl, rfl, rfl, rfl⟩
  | cons k ks ih =>
    rw [setUpKeys]
    by_cases hk : k = 0
    · rw [if_pos hk]
      exact ⟨rfl, rfl, rfl, rfl, rfl, rfl⟩
    · rw [if_neg hk]
      by_cases hr : KEY_MAX ≤ k
      · rw [if_pos hr]
        exact ih s
      · rw [if_neg hr]
        exact ih _

/-- The state built by the probe: pressed bits all clear, counters zero,
phase idle, no work pending, callback presence as configured. -/
lemma probeState_frame (kd : List Nat) (ku : Option (List Nat)) (kdf kuf : Bool) :
    (probeState kd ku kdf kuf).key = initState.key
    ∧ (probeState kd ku kdf kuf).key_down = 0
    ∧ (probeState kd ku kdf kuf).key_up = 0
    ∧ (probeState kd ku kdf kuf).key_is_down = 0
    ∧ (probeState kd ku kdf kuf).key_down_work = DWork.idle
    ∧ (probeState kd ku kdf kuf).key_up_work = false
    ∧ (probeState kd ku kdf kuf).key_down_fn = kdf
    ∧ (probeState kd ku kdf kuf).key_up_fn = kuf := by
  unfold probeState
  cases ku with
  | none =>
    obtain ⟨h1, h2, h3, h4, h5, h6⟩ := setDownKeys_frame kd initState
    exact ⟨h1, h2, h3, h4, h5, h6, rfl, rfl⟩
  | some l =>
    obtain ⟨d1, d2, d3, d4, d5, d6⟩ := setDownKeys_frame kd initState
    obtain ⟨u1, u2, u3, u4, u5, u6⟩ := setUpKeys_frame l (setDownKeys initState kd)
    exact ⟨u1.trans d1, u2.trans d2, u3.trans d3, u4.trans d4,
      u5.trans d5, u6.trans d6, rfl, rfl⟩

/-- Right after the probe all pressed bits are clear, so both counters
(zeroed by `kzalloc`) agree with the pressed-bit counts. -/
lemma probeState_countsInv (kd : List Nat) (ku : Option (List Nat))
    (kdf kuf : Bool) : countsInv (probeState kd ku kdf kuf) := by
  obtain ⟨h1, h2, h3, _⟩ := probeState_frame kd ku kdf kuf
  have hdz : downKeysPressed (probeState kd ku kdf kuf) = 0 := by
    unfold downKeysPressed
    rw [Finset.card_eq_zero]
    apply Finset.filter_false_of_mem
    intro x _
    rw [h1]
    simp [initState]
  have huz : upKeysPressed (probeState kd ku kdf kuf) = 0 := by
    unfold upKeysPressed
    rw [Finset.card_eq_zero]
    apply Finset.filter_false_of_mem
    intro x _
    rw [h1]
    simp [initState]
  constructor
  · rw [h2, hdz]
    rfl
  · rw [h3, huz]
    rfl

/-- The counter invariant holds after any event sequence. -/
lemma processEvents_countsInv (evs : List (Nat × Nat × Int))
    (s : keycombo_state) (h : countsInv s) : countsInv (processEvents s evs) := by
  induction evs generalizing s with
  | nil => exact h
  | cons e t ih => exact ih _ (keycombo_event_countsInv s e.1 e.2.1 e.2.2 h)

/-- Claim C1: after every sequence of `keycombo_event` calls on a freshly
probed instance, `key_down` equals the number of down-set keys whose
pressed bit is set and `key_up` equals the number of up-set keys whose
pressed bit is set. -/
theorem keycombo_counts_invariant (kd : List Nat) (ku : Option (List Nat))
    (kdf kuf : Bool) (evs : List (Nat × Nat × Int)) :
    (processEvents (probeState kd ku kdf kuf) evs).key_down
      = (downKeysPressed (processEvents (probeState kd ku kdf kuf) evs) : Int)
    ∧ (processEvents (probeState kd ku kdf kuf) evs).key_up
      = (upKeysPressed (processEvents (probeState kd ku kdf kuf) evs) : Int) :=
  processEvents_countsInv evs _ (probeState_countsInv kd ku kdf kuf)

/-- One `keycombo_event` call preserves the phase invariant. -/
lemma keycombo_event_kdInv (s : keycombo_state) (t c : Nat) (v : Int)
    (h : kdInv s) : kdInv (keycombo_event s t c v) := by
  obtain ⟨h01, hcd⟩ := h
  rcases keycombo_event_main s t c v with he | ⟨hc, hb, hnd, hcase⟩
  · rw [he]
    exact ⟨h01, hcd⟩
  · rcases hcase with ⟨hdone, he⟩ | ⟨hnd2, hkd, hw, he⟩ | ⟨hnd2, hkd, hw, he⟩
      | ⟨hnd2, hkd, he⟩ <;> rw [he]
    · exact ⟨Or.inr rfl, fun _ => hdone⟩
    · exact ⟨Or.inl rfl, fun hcon => by simp at hcon⟩
    · exact ⟨Or.inl rfl, fun hcon => by simp at hcon⟩
    · refine ⟨Or.inl ?_, fun hcon => ?_⟩
      · rw [updateCounts_key_is_down]
        exact hkd
      · rw [updateCounts_key_is_down, hkd] at hcon
        norm_num at hcon

/-- The phase invariant holds after any event sequence. -/
lemma processEvents_kdInv (evs : List (Nat × Nat × Int))
    (s : keycombo_state) (h : kdInv s) : kdInv (processEvents s evs) := by
  induction evs generalizing s with
  | nil => exact h
  | cons e t ih => exact ih _ (keycombo_event_kdInv s e.1 e.2.1 e.2.2 h)

/-- Claim C5: in every state reached from a freshly probed instance with a
non-empty down-set by `keycombo_event` calls, `key_is_down = 1` only when
`key_down` equals `key_down_target` and `key_up` is zero. -/
theorem keycombo_down_implies_combo (kd : List Nat) (ku : Option (List Nat))
    (kdf kuf : Bool) (evs : List (Nat × Nat × Int))
    (htarget : 1 ≤ (probeState kd ku kdf kuf).key_down_target)
    (hkd : (processEvents (probeState kd ku kdf kuf) evs).key_is_down = 1) :
    (processEvents (probeState kd ku kdf kuf) evs).key_down
      = (processEvents (probeState kd ku kdf kuf) evs).key_down_target
    ∧ (processEvents (probeState kd ku kdf kuf) evs).key_up = 0 := by
  have hbase : kdInv (probeState kd ku kdf kuf) := by
    obtain ⟨_, _, _, h4, _⟩ := probeState_frame kd ku kdf kuf
    refine ⟨Or.inl h4, fun hh => ?_⟩
    rw [h4] at hh
    norm_num at hh
  exact (processEvents_kdInv evs _ hbase).2 hkd

/-- Witness for `keycombo_down_implies_combo`: one tracked key, pressed
once. -/
theorem keycombo_down_implies_combo_witness :
    1 ≤ (probeState [5] none true true).key_down_target
    ∧ ((processEvents (probeState [5] none true true) [(EV_KEY, 5, 1)]).key_down
        = (processEvents (probeState [5] none true true)
            [(EV_KEY, 5, 1)]).key_down_target
      ∧ (processEvents (probeState [5] none true true)
          [(EV_KEY, 5, 1)]).key_up = 0) :=
  ⟨by decide,
    keycombo_down_implies_combo [5] none true true [(EV_KEY, 5, 1)]
      (by decide) (by decide)⟩

/-! ### Alternating-word machinery for the callback-order claim -/

lemma flipLab_flipLab (e : Lab) : flipLab (flipLab e) = e := by
  cases e <;> rfl

/-- Splitting an alternating word: the tail must alternate from whichever
label the prefix's parity expects. -/
lemma altFrom_append (e : Lab) (w v : List Lab) :
    altFrom e (w ++ v)
      = (altFrom e w && altFrom (if Even w.length then e else flipLab e) v) := by
  induction w generalizing e with
  | nil => simp [altFrom]
  | cons x t ih =>
    simp only [List.cons_append, altFrom, List.length_cons, List.append_eq]
    rw [ih (flipLab e)]
    rcases Nat.even_or_odd t.length with h | h
    · rw [if_pos h, if_neg (by simp [Nat.even_add_one, h])]
      exact (Bool.and_assoc _ _ _).symm
    · rw [if_neg (by simpa using h), flipLab_flipLab,
        if_pos (by simp [Nat.even_add_one]; simpa using h)]
      exact (Bool.and_assoc _ _ _).symm

lemma altFrom_of_append (e : Lab) (w v : List Lab)
    (h : altFrom e (w ++ v) = true) : altFrom e w = true := by
  rw [altFrom_append, Bool.and_eq_true] at h
  exact h.1

/-- Extending an alternating word by one label: the label must match the
parity-expected one. -/
lemma altFrom_snoc (e x : Lab) (w : List Lab) :
    altFrom e (w ++ [x]) = true
      ↔ (altFrom e w = true ∧ x = (if Even w.length then e else flipLab e)) := by
  rw [altFrom_append]
  simp [altFrom]

/-- Every system step preserves the ordering invariant. -/
lemma step_SysInv (y y2 : Sys) (hs : Step y y2) (h : SysInv y) : SysInv y2 := by
  obtain ⟨ha, hpar, h01, hcd, hdw, huw, hdf, huf⟩ := h
  cases hs with
  | event t c v =>
    rcases keycombo_event_main y.st t c v with he | ⟨hc, hb, hnd, hcase⟩
    · unfold SysInv
      dsimp only
      rw [he]
      exact ⟨ha, hpar, h01, hcd, hdw, huw, hdf, huf⟩
    · rcases hcase with ⟨hdone, he⟩ | ⟨hnotdone, hkdne, hwne, he⟩ |
        ⟨hnotdone, hkdne, hweq, he⟩ | ⟨hnotdone, hkd0, he⟩
      · -- combo formed: the activate timer is armed
        have hkd0 : y.st.key_is_down = 0 := by
          rcases h01 with h0 | h1
          · exact h0
          · exact absurd hdone (comboDone_not_after_update y.st c v (hcd h1))
        have hdwidle : y.st.key_down_work = DWork.idle := by
          by_contra hne
          have hx := hdw hne
          rw [hkd0] at hx
          norm_num at hx
        have hEv : Even (y.trace ++ pendingLabs y.st).length := by
          by_contra hne
          have hx := hpar.mpr hne
          rw [hkd0] at hx
          norm_num at hx
        have hkd' : (keycombo_event y.st t c v).key_is_down = 1 := by
          rw [he]
        have hw' : (keycombo_event y.st t c v).key_down_work = DWork.timer := by
          rw [he]
          simp [hdwidle]
        have hu' : (keycombo_event y.st t c v).key_up_work = y.st.key_up_work := by
          rw [he]
          simp
        have hdf' : (keycombo_event y.st t c v).key_down_fn = y.st.key_down_fn := by
          rw [he]
          simp
        have huf' : (keycombo_event y.st t c v).key_up_fn = y.st.key_up_fn := by
          rw [he]
          simp
        have hcd' : comboDone (keycombo_event y.st t c v) := by
          rw [he]
          exact hdone
        have hplY : pendingLabs y.st
            = (if y.st.key_up_work then [Lab.deact] else []) := by
          simp [pendingLabs, hdwidle]
        have hplE : pendingLabs (keycombo_event y.st t c v)
            = (if y.st.key_up_work then [Lab.deact] else []) ++ [Lab.act] := by
          unfold pendingLabs
          rw [hu', hw']
          simp
        have hword : y.trace ++ pendingLabs (keycombo_event y.st t c v)
            = (y.trace ++ pendingLabs y.st) ++ [Lab.act] := by
          rw [hplE, hplY, List.append_assoc]
        have hlen : ((y.trace ++ pendingLabs y.st) ++ [Lab.act]).length
            = (y.trace ++ pendingLabs y.st).length + 1 := by
          simp
          omega
        unfold SysInv
        dsimp only
        refine ⟨?_, ?_, Or.inr hkd', fun _ => hcd', fun _ => hkd', ?_, ?_, ?_⟩
        · rw [hword, altFrom_snoc, if_pos hEv]
          exact ⟨ha, rfl⟩
        · rw [hkd', hword, hlen, Nat.even_add_one]
          constructor
          · intro _
            exact not_not_intro hEv
          · intro _
            rfl
        · intro _ _
          rw [hw']
          decide
        · rw [hdf']
          exact hdf
        · rw [huf']
          exact huf
      · -- combo broken, cancellation succeeded
        have hkd1 : y.st.key_is_down = 1 := by
          rcases h01 with h0 | h1
          · exact absurd h0 hkdne
          · exact h1
        have hOdd : ¬ Even (y.trace ++ pendingLabs y.st).length := hpar.mp hkd1
        have hkd' : (keycombo_event y.st t c v).key_is_down = 0 := by
          rw [he]
        have hw' : (keycombo_event y.st t c v).key_down_work = DWork.idle := by
          rw [he]
        have hu' : (keycombo_event y.st t c v).key_up_work = y.st.key_up_work := by
          rw [he]
          simp
        have hdf' : (keycombo_event y.st t c v).key_down_fn = y.st.key_down_fn := by
          rw [he]
          simp
        have huf' : (keycombo_event y.st t c v).key_up_fn = y.st.key_up_fn := by
          rw [he]
          simp
        have hplY : pendingLabs y.st
            = (if y.st.key_up_work then [Lab.deact] else []) ++ [Lab.act] := by
          unfold pendingLabs
          rw [if_pos hwne]
        have hplE : pendingLabs (keycombo_event y.st t c v)
            = (if y.st.key_up_work then [Lab.deact] else []) := by
          unfold pendingLabs
          rw [hu', hw']
          simp
        have hword : y.trace ++ pendingLabs y.st
            = (y.trace ++ pendingLabs (keycombo_event y.st t c v)) ++ [Lab.act] := by
          rw [hplY, hplE, List.append_assoc]
        have hlen : (y.trace ++ pendingLabs y.st).length
            = (y.trace ++ pendingLabs (keycombo_event y.st t c v)).length + 1 := by
          rw [hword]
          simp
          omega
        have hEv : Even (y.trace ++ pendingLabs (keycombo_event y.st t c v)).length := by
          rw [hlen, Nat.even_add_one] at hOdd
          exact not_not.mp hOdd
        unfold SysInv
        dsimp only
        refine ⟨?_, ?_, Or.inl hkd', ?_, ?_, ?_, ?_, ?_⟩
        · have hx := ha
          rw [hword] at hx
          exact altFrom_of_append _ _ _ hx
        · rw [hkd']
          constructor
          · intro hx
            norm_num at hx
          · intro hx
            exact absurd hEv hx
        · intro hx
          rw [hkd'] at hx
          norm_num at hx
        · intro hne
          rw [hw'] at hne
          exact absurd rfl hne
        · intro _ hx
          rw [hkd'] at hx
          norm_num at hx
        · rw [hdf']
          exact hdf
        · rw [huf']
          exact huf
      · -- combo broken, cancellation failed: deactivate queued
        have hkd1 : y.st.key_is_down = 1 := by
          rcases h01 with h0 | h1
          · exact absurd h0 hkdne
          · exact h1
        have hOdd : ¬ Even (y.trace ++ pendingLabs y.st).length := hpar.mp hkd1
        have huwf : y.st.key_up_work = false := by
          cases hupw : y.st.key_up_work with
          | false => rfl
          | true => exact absurd hweq (huw hupw hkd1)
        have hkd' : (keycombo_event y.st t c v).key_is_down = 0 := by
          rw [he]
        have hw' : (keycombo_event y.st t c v).key_down_work = DWork.idle := by
          rw [he]
          simp [hweq]
        have hu' : (keycombo_event y.st t c v).key_up_work = true := by
          rw [he]
        have hdf' : (keycombo_event y.st t c v).key_down_fn = y.st.key_down_fn := by
          rw [he]
          simp
        have huf' : (keycombo_event y.st t c v).key_up_fn = y.st.key_up_fn := by
          rw [he]
          simp
        have hplY : pendingLabs y.st = [] := by
          simp [pendingLabs, huwf, hweq]
        have hplE : pendingLabs (keycombo_event y.st t c v) = [Lab.deact] := by
          unfold pendingLabs
          rw [hu', hw']
          simp
        have hword : y.trace ++ pendingLabs (keycombo_event y.st t c v)
            = (y.trace ++ pendingLabs y.st) ++ [Lab.deact] := by
          rw [hplE, hplY]
          simp
        have hlen : (y.trace ++ pendingLabs (keycombo_event y.st t c v)).length
            = (y.trace ++ pendingLabs y.st).length + 1 := by
          rw [hword]
          simp
          omega
        have hEv : Even (y.trace ++ pendingLabs (keycombo_event y.st t c v)).length := by
          rw [hlen, Nat.even_add_one]
          exact hOdd
        unfold SysInv
        dsimp only
        refine ⟨?_, ?_, Or.inl hkd', ?_, ?_, ?_, ?_, ?_⟩
        · rw [hword, altFrom_snoc, if_neg hOdd]
          exact ⟨ha, rfl⟩
        · rw [hkd']
          constructor
          · intro hx
            norm_num at hx
          · intro hx
            exact absurd hEv hx
        · intro hx
          rw [hkd'] at hx
          norm_num at hx
        · intro hne
          rw [hw'] at hne
          exact absurd rfl hne
        · intro _ hx
          rw [hkd'] at hx
          norm_num at hx
        · rw [hdf']
          exact hdf
        · rw [huf']
          exact huf
      · -- plain update with the phase idle
        have hkd' : (keycombo_event y.st t c v).key_is_down = 0 := by
          rw [he, updateCounts_key_is_down]
          exact hkd0
        have hw' : (keycombo_event y.st t c v).key_down_work = y.st.key_down_work := by
          rw [he]
          simp
        have hu' : (keycombo_event y.st t c v).key_up_work = y.st.key_up_work := by
          rw [he]
          simp
        have hdf' : (keycombo_event y.st t c v).key_down_fn = y.st.key_down_fn := by
          rw [he]
          simp
        have huf' : (keycombo_event y.st t c v).key_up_fn = y.st.key_up_fn := by
          rw [he]
          simp
        have hplE : pendingLabs (keycombo_event y.st t c v) = pendingLabs y.st := by
          unfold pendingLabs
          rw [hu', hw']
        unfold SysInv
        dsimp only
        refine ⟨?_, ?_, Or.inl hkd', ?_, ?_, ?_, ?_, ?_⟩
        · rw [hplE]
          exact ha
        · rw [hkd', hplE, ← hkd0]
          exact hpar
        · intro hx
          rw [hkd'] at hx
          norm_num at hx
        · intro hne
          rw [hw'] at hne
          have hx := hdw hne
          rw [hkd0] at hx
          norm_num at hx
        · intro _ hx
          rw [hkd'] at hx
          norm_num at hx
        · rw [hdf']
          exact hdf
        · rw [huf']
          exact huf
  | fire_timer hT =>
    have hplE : pendingLabs { y.st with key_down_work := DWork.queued }
        = pendingLabs y.st := by
      unfold pendingLabs
      rw [hT]
      simp
    unfold SysInv
    dsimp only
    refine ⟨?_, ?_, h01, hcd, ?_, ?_, hdf, huf⟩
    · rw [hplE]
      exact ha
    · rw [hplE]
      exact hpar
    · intro _
      refine hdw ?_
      rw [hT]
      decide
    · intro hu2 _
      decide
  | run_key_down hQ hU =>
    have hkd1 : y.st.key_is_down = 1 := by
      refine hdw ?_
      rw [hQ]
      decide
    have htr : (if y.st.key_down_fn then [Lab.act] else []) = [Lab.act] := by
      rw [hdf]
      simp
    have hplY : pendingLabs y.st = [Lab.act] := by
      simp [pendingLabs, hU, hQ]
    have hplE : pendingLabs { y.st with key_down_work := DWork.idle } = [] := by
      simp [pendingLabs, hU]
    unfold SysInv
    dsimp only
    refine ⟨?_, ?_, h01, hcd, ?_, ?_, hdf, huf⟩
    · rw [htr, hplE, List.append_nil]
      rw [hplY] at ha
      exact ha
    · rw [htr, hplE, List.append_nil]
      rw [hplY] at hpar
      exact hpar
    · intro hne
      exact absurd rfl hne
    · intro hu2 _
      rw [hU] at hu2
      simp at hu2
  | run_key_up hU =>
    have htr : (if y.st.key_up_fn then [Lab.deact] else []) = [Lab.deact] := by
      rw [huf]
      simp
    have hplY : pendingLabs y.st
        = Lab.deact :: (if y.st.key_down_work ≠ DWork.idle then [Lab.act] else []) := by
      simp [pendingLabs, hU]
    have hplE : pendingLabs
          { y.st with key_up_work := false, combo_up_wake_source := false }
        = (if y.st.key_down_work ≠ DWork.idle then [Lab.act] else []) := by
      simp [pendingLabs]
    have hword : (y.trace ++ [Lab.deact])
          ++ (if y.st.key_down_work ≠ DWork.idle then [Lab.act] else [])
        = y.trace ++ pendingLabs y.st := by
      rw [hplY, List.append_assoc]
      rfl
    unfold SysInv
    dsimp only
    refine ⟨?_, ?_, h01, hcd, hdw, ?_, hdf, huf⟩
    · rw [htr, hplE, hword]
      exact ha
    · rw [htr, hplE, hword]
      exact hpar
    · intro hu2
      exact absurd hu2 (by simp)

/-- The ordering invariant propagates along reachability. -/
lemma reach_SysInv (a y : Sys) (hinv : SysInv a) (h : Reach a y) : SysInv y := by
  have h' : Relation.ReflTransGen Step a y := h
  clear h
  induction h' with
  | refl => exact hinv
  | tail _ hstep ih => exact step_SysInv _ _ hstep ih

/-- The freshly probed system satisfies the ordering invariant. -/
lemma initSys_SysInv (kd : List Nat) (ku : Option (List Nat)) :
    SysInv (initSys kd ku) := by
  obtain ⟨_, _, _, h4, h5, h6, h7, h8⟩ := probeState_frame kd ku true true
  have hpl : pendingLabs (probeState kd ku true true) = [] := by
    simp [pendingLabs, h5, h6]
  unfold SysInv initSys
  dsimp only
  rw [hpl]
  refine ⟨rfl, ?_, Or.inl h4, ?_, ?_, ?_, h7, h8⟩
  · rw [h4]
    norm_num
  · intro hx
    rw [h4] at hx
    norm_num at hx
  · intro hne
    exact absurd h5 hne
  · intro hu2
    rw [h6] at hu2
    simp at hu2

/-- Claim C3: over every interleaving of events, timer expiry and
work-queue executions starting from a freshly probed instance with both
callbacks configured, the observed callback sequence is strictly
alternating and starts with activate. -/
theorem keycombo_callbacks_alternate (kd : List Nat) (ku : Option (List Nat))
    (y : Sys) (h : Reach (initSys kd ku) y) :
    altFrom Lab.act y.trace = true :=
  altFrom_of_append Lab.act y.trace (pendingLabs y.st)
    (reach_SysInv _ _ (initSys_SysInv kd ku) h).1

/-- Witness for `keycombo_callbacks_alternate` at the initial system. -/
theorem keycombo_callbacks_alternate_witness :
    altFrom Lab.act (initSys [5] none).trace = true :=
  keycombo_callbacks_alternate [5] none (initSys [5] none)
    Relation.ReflTransGen.refl

/-- Witness for `keycombo_event_shared_code_up_role_general` at code 5. -/
theorem keycombo_event_shared_code_up_role_general_witness :
    (5 : Nat) ≠ 0 ∧ (5 : Nat) < KEY_MAX
    ∧ ((probeState [5] (some [5]) true true).upbit 5 = true
      ∧ (probeState [5] (some [5]) true true).key_down_target = 1
      ∧ (keycombo_event (probeState [5] (some [5]) true true) EV_KEY 5 1).key_up
          = (probeState [5] (some [5]) true true).key_up + 1
      ∧ (keycombo_event (probeState [5] (some [5]) true true) EV_KEY 5 1).key_down
          = (probeState [5] (some [5]) true true).key_down) :=
  ⟨by decide, by decide,
    keycombo_event_shared_code_up_role_general 5 true true (by decide) (by decide)⟩

end Keycombo
